import Mathlib

/-!
Shallow embedding of the dishwasher-rotation state logic from
`roommate_dishwasher_web_app_rotation_by_load.js`.

JavaScript objects used as string-keyed maps (`paused`, `credits`, `pins`)
are embedded as association lists (`List (String × α)`): property read is
first-match lookup with a default (`undefined` coerced by `?? / ||`),
property write updates the value in place when the key exists and appends
the key otherwise, exactly as JS preserves key insertion order.
Numeric credits are embedded as `ℚ` (all values the program manipulates are
multiples of 0.5, on which JS float arithmetic is exact).
The `prompt` results consumed by `handleComplete` / `requirePinFor` are
passed in as `Option String` arguments (`none` models a cancelled prompt,
i.e. `null`); the fresh history id and timestamp are passed as arguments.
-/

namespace Dishwasher

/-- Kernel-reducible embedding of JS `String.prototype.trim()`: drop the
leading and trailing whitespace characters. -/
def jsTrim (s : String) : String :=
  ⟨((s.data.dropWhile Char.isWhitespace).reverse.dropWhile
      Char.isWhitespace).reverse⟩

/-- First-match lookup in a JS-object association list (`obj[k]`,
`undefined` as `none`). -/
def lookupKey : List (String × α) → String → Option α
  | [], _ => none
  | (k', v) :: rest, k => if k' = k then some v else lookupKey rest k

/-- Lookup with a default, the embedding of `obj[k] ?? d` / `obj[k] || d`. -/
def getD (l : List (String × α)) (k : String) (d : α) : α :=
  (lookupKey l k).getD d

/-- JS object property write `{...obj, [k]: v}` (or `obj[k] = v` on a copy):
replaces the value at `k` keeping key order, appending `k` when absent. -/
def setKey : List (String × α) → String → α → List (String × α)
  | [], k, v => [(k, v)]
  | (k', v') :: rest, k, v =>
      if k' = k then (k', v) :: rest else (k', v') :: setKey rest k v

/-- The key sequence of a JS-object association list. -/
def keys (l : List (String × α)) : List String :=
  l.map Prod.fst

/-- History entry created by `addCredits` (lines 154–162 of the source). -/
structure HistoryEntry where
  id : String
  when : String
  kind : String
  runBy : String
  unloadBy : String
  runCredit : ℚ
  unloadCredit : ℚ
deriving DecidableEq, Repr

/-- The root state document (`defaultState` shape, lines 36–43). -/
structure AppState where
  roommates : List String
  queue : List String
  paused : List (String × Bool)
  credits : List (String × ℚ)
  history : List HistoryEntry
  pins : List (String × String)
deriving DecidableEq, Repr

/-- Truthiness of `paused[n]` (`undefined` is falsy). -/
def pausedD (st : AppState) (n : String) : Bool :=
  getD st.paused n false

/-- `activeQueue = queue.filter((n) => !paused[n])` (lines 67–70). -/
def activeQueue (st : AppState) : List String :=
  st.queue.filter (fun n => !(pausedD st n))

/-- `advanceQueue` (lines 115–120): rotate the active sub-sequence left by
one and re-append the paused members in their current queue order; early
return when the active sub-sequence is empty. -/
def advanceQueue (st : AppState) : AppState :=
  if activeQueue st = [] then st
  else
    { st with queue :=
        ((activeQueue st).drop 1 ++ (activeQueue st).take 1)
          ++ st.queue.filter (fun n => pausedD st n) }

/-- `togglePause` (lines 122–129): flip `paused[name]` (default
`false → true`), then repartition the queue active-first. -/
def togglePause (st : AppState) (name : String) : AppState :=
  let p := setKey st.paused name (!(getD st.paused name false))
  let active := st.queue.filter (fun n => !(getD p n false))
  let pausedList := st.queue.filter (fun n => getD p n false)
  { st with paused := p, queue := active ++ pausedList }

/-- The regex `^[0-9]{4,8}$` of `setPin` (line 133). -/
def validPin (p : String) : Bool :=
  4 ≤ p.length && p.length ≤ 8 && p.data.all Char.isDigit

/-- `setPin` (lines 131–138). The `Bool` component is `false` exactly when
the function alerts "PIN must be 4–8 digits." and leaves the pins
unchanged (the `ValidationError` outcome). -/
def setPin (pins : List (String × String)) (name pinRaw : String) :
    Bool × List (String × String) :=
  let pin := jsTrim pinRaw
  if pin ≠ "" && !(validPin pin) then (false, pins)
  else (true, setKey pins name pin)

/-- `requirePinFor` (lines 140–147), with the `prompt` result passed in as
`entered` (`none` = cancelled prompt, whose `?.trim()` is `undefined` and
never equals a non-empty expected PIN). -/
def requirePinFor (pins : List (String × String)) (name : String)
    (entered : Option String) : Bool :=
  let expected := jsTrim (getD pins name "")
  if expected = "" then true
  else
    match entered with
    | none => false
    | some e => jsTrim e = expected

/-- `addCredits` (lines 149–165): `+0.5` for a truthy `runBy`, `+0.5` for a
truthy `unloadBy` (missing ledger entries read as 0 and are created), and a
new history entry prepended with the log truncated to 200 entries.
`eid`/`ewhen` stand for the generated `Math.random()` id and
`new Date().toISOString()` timestamp. -/
def addCredits (st : AppState) (runBy unloadBy kind eid ewhen : String) :
    AppState :=
  let c1 := if runBy = "" then st.credits
    else setKey st.credits runBy (getD st.credits runBy 0 + 1/2)
  let c2 := if unloadBy = "" then c1
    else setKey c1 unloadBy (getD c1 unloadBy 0 + 1/2)
  let entry : HistoryEntry :=
    { id := eid, when := ewhen, kind := kind, runBy := runBy,
      unloadBy := unloadBy, runCredit := 1/2, unloadCredit := 1/2 }
  { st with credits := c2, history := (entry :: st.history).take 200 }

/-- `completeLoad` (lines 167–170). -/
def completeLoad (st : AppState) (kind runBy unloadBy : String)
    (advance : Bool) (eid ewhen : String) : AppState :=
  let st1 := addCredits st runBy unloadBy kind eid ewhen
  if advance then advanceQueue st1 else st1

/-- `prompt(...)?.trim() || deflt`: a cancelled prompt (`none`) or an
all-whitespace answer falls back to the default. -/
def resolveName (entered : Option String) (deflt : String) : String :=
  match entered with
  | none => deflt
  | some s => if jsTrim s = "" then deflt else jsTrim s

/-- `current ?? roommates[0] ?? ""` where `current = activeQueue[0] || null`
(lines 88 and 174). -/
def defaultRunner (st : AppState) : String :=
  let fallback := st.roommates.head?.getD ""
  match (activeQueue st).head? with
  | none => fallback
  | some n => if n = "" then fallback else n

/-- Outcome of one `handleComplete` attempt: committed, PIN rejected
("Incorrect PIN." alert), or the "Please set roommates first." early
return. -/
inductive CompleteOutcome where
  | committed
  | authDenied
  | noRoommates
deriving DecidableEq, Repr

/-- `handleComplete` (lines 172–196): resolve the runner (prompt with
default), PIN-check the runner, resolve the unloader (prompt defaulting to
the runner), PIN-check the unloader, then `completeLoad` with
`advance = true`. Every early return leaves the state untouched. -/
def handleComplete (st : AppState) (kind : String)
    (rIn rSec uIn uSec : Option String) (eid ewhen : String) :
    CompleteOutcome × AppState :=
  let runBy := resolveName rIn (defaultRunner st)
  if runBy = "" then (.noRoommates, st)
  else if !(requirePinFor st.pins runBy rSec) then (.authDenied, st)
  else
    let unloadBy := resolveName uIn runBy
    if unloadBy = "" then (.noRoommates, st)
    else if !(requirePinFor st.pins unloadBy uSec) then (.authDenied, st)
    else (.committed, completeLoad st kind runBy unloadBy true eid ewhen)

/-- The state update of `setRoommatesFromInput` (lines 97–103) applied to
an already-parsed roster list: queue rebuilt as the list filtered by the
current paused set, credits and pins re-derived by `reduce` keeping prior
values and defaulting new names to `0` / `""`. -/
def applyRoster (st : AppState) (list : List String) : AppState :=
  { st with
    roommates := list
    queue := list.filter (fun n => !(pausedD st n))
    credits := list.foldl (fun acc n => setKey acc n (getD st.credits n 0)) []
    pins := list.foldl (fun acc n => setKey acc n (getD st.pins n "")) [] }

/-- `setRoommatesFromInput` (lines 91–104): split on commas, trim, drop
blanks; silently keep the state when nothing remains. -/
def setRoommatesFromInput (st : AppState) (value : String) : AppState :=
  let list := ((value.splitOn ",").map jsTrim).filter (fun s => s ≠ "")
  if list = [] then st else applyRoster st list

/-- `active.splice(fromIdx, 1)`'s effect on the array: removes the element
at `fromIdx` when in range, nothing otherwise (JS clamps the start). -/
def removeNth (l : List String) (i : Nat) : List String :=
  l.take i ++ l.drop (i + 1)

/-- `reorderQueue`'s two splices on the active copy (lines 108–110):
`moved` is `active[fromIdx]` (`undefined`, i.e. `none`, when out of range)
and is inserted — even when `undefined` — at `toIdx` clamped to the array
length. The element type is `Option String` because the unchecked splice
can genuinely put `undefined` into the queue. -/
def reorderActive (active : List String) (fromIdx toIdx : Nat) :
    List (Option String) :=
  let removed := (removeNth active fromIdx).map some
  removed.take toIdx ++ [active[fromIdx]?] ++ removed.drop toIdx

/-- `reorderQueue` (lines 106–113): early return when the indices are
equal, otherwise splice on the active copy and re-append the paused
members. No index validation is performed. -/
def reorderQueue (st : AppState) (fromIdx toIdx : Nat) :
    List (Option String) :=
  if fromIdx = toIdx then st.queue.map some
  else
    reorderActive (activeQueue st) fromIdx toIdx ++
      (st.queue.filter (fun n => pausedD st n)).map some

/-! Association-list lemmas (JS object read/write laws). -/

theorem lookupKey_setKey_self (l : List (String × α)) (k : String) (v : α) :
    lookupKey (setKey l k v) k = some v := by
  induction l with
  | nil => simp [setKey, lookupKey]
  | cons h t ih =>
    obtain ⟨k', v'⟩ := h
    by_cases hk : k' = k
    · simp [setKey, hk, lookupKey]
    · simp [setKey, hk, lookupKey, ih]

theorem lookupKey_setKey_ne (l : List (String × α)) (k k' : String) (v : α)
    (h : k ≠ k') : lookupKey (setKey l k v) k' = lookupKey l k' := by
  induction l with
  | nil => simp [setKey, lookupKey, h]
  | cons hd t ih =>
    obtain ⟨a, b⟩ := hd
    by_cases ha : a = k
    · subst ha
      simp [setKey, lookupKey, h]
    · simp [setKey, ha, lookupKey, ih]

theorem getD_setKey_self (l : List (String × α)) (k : String) (v d : α) :
    getD (setKey l k v) k d = v := by
  simp [getD, lookupKey_setKey_self]

theorem getD_setKey_ne (l : List (String × α)) (k k' : String) (v d : α)
    (h : k ≠ k') : getD (setKey l k v) k' d = getD l k' d := by
  simp [getD, lookupKey_setKey_ne l k k' v h]

theorem setKey_of_not_mem (l : List (String × α)) (k : String) (v : α)
    (h : k ∉ keys l) : setKey l k v = l ++ [(k, v)] := by
  induction l with
  | nil => simp [setKey]
  | cons hd t ih =>
    obtain ⟨a, b⟩ := hd
    have ha : a ≠ k := by
      intro hak
      exact h (by simp [keys, hak])
    have ht : k ∉ keys t := by
      intro hk
      exact h (by simp [keys] at hk ⊢; exact Or.inr hk)
    simp [setKey, ha, ih ht]

theorem foldl_setKey_eq_map (R : List String) (f : String → α)
    (init : List (String × α)) (hnd : R.Nodup)
    (hdisj : ∀ k ∈ R, k ∉ keys init) :
    R.foldl (fun acc n => setKey acc n (f n)) init =
      init ++ R.map (fun n => (n, f n)) := by
  induction R generalizing init with
  | nil => simp
  | cons a t ih =>
    simp only [List.foldl_cons]
    rw [setKey_of_not_mem init a (f a) (hdisj a (by simp))]
    rw [ih (init ++ [(a, f a)]) hnd.of_cons]
    · simp
    · intro k hk
      have hka : k ≠ a := by
        intro h
        subst h
        exact (List.nodup_cons.mp hnd).1 hk
      have hki : k ∉ keys init := hdisj k (by simp [hk])
      have hkeys : keys (init ++ [(a, f a)]) = keys init ++ [a] := by
        simp [keys]
      rw [hkeys]
      simp only [List.mem_append, List.mem_singleton]
      rintro (hmem | hmem)
      · exact hki hmem
      · exact hka hmem

theorem lookupKey_map_pair (R : List String) (f : String → α) (n : String)
    (h : n ∈ R) : lookupKey (R.map fun m => (m, f m)) n = some (f n) := by
  induction R with
  | nil => simp at h
  | cons a t ih =>
    by_cases ha : a = n
    · subst ha
      simp [lookupKey]
    · have : n ∈ t := by
        rcases List.mem_cons.mp h with h1 | h1
        · exact absurd h1.symm ha
        · exact h1
      simp [lookupKey, ha, ih this]

/-! Claim theorems. -/

/-- C2. `requirePinFor` (the `authorize(name, s)` gate) returns true for
every supplied secret when the stored PIN for `name` is empty, and
otherwise returns true iff the supplied secret after trimming equals the
stored PIN. The hypothesis `hinv` states the PIN-registry invariant that
stored PINs carry no surrounding whitespace — `setPin` only ever stores
trimmed strings and the default is `""`. -/
theorem requirePinFor_spec (pins : List (String × String)) (name s : String)
    (hinv : jsTrim (getD pins name "") = getD pins name "") :
    (getD pins name "" = "" → requirePinFor pins name (some s) = true)
    ∧ (getD pins name "" ≠ "" →
        (requirePinFor pins name (some s) = true ↔
          jsTrim s = getD pins name "")) := by
  unfold requirePinFor
  rw [hinv]
  constructor
  · intro h
    simp [h]
  · intro h
    simp [h]

/-- Witness for C2: stored PIN "1234" for "A". -/
theorem requirePinFor_spec_witness :
    (getD [("A", "1234")] "A" "" = "" →
      requirePinFor [("A", "1234")] "A" (some "0000") = true)
    ∧ (getD [("A", "1234")] "A" "" ≠ "" →
        (requirePinFor [("A", "1234")] "A" (some "0000") = true ↔
          jsTrim "0000" = getD [("A", "1234")] "A" "")) :=
  requirePinFor_spec [("A", "1234")] "A" "0000" (by decide)

/-- C3. `addCredits` (the `recordCompletion` operation) increases
`credits[a]` by 0.5 and `credits[b]` by 0.5 independently — so for
`a = b` that single person's credit grows by exactly 1 — and it creates
missing ledger entries on demand, reading them as 0 (the function is
total: it never fails). -/
theorem addCredits_spec (st : AppState) (a b kind eid ewhen : String)
    (ha : a ≠ "") (hb : b ≠ "") :
    (a ≠ b →
      getD (addCredits st a b kind eid ewhen).credits a 0 =
          getD st.credits a 0 + 1/2
      ∧ getD (addCredits st a b kind eid ewhen).credits b 0 =
          getD st.credits b 0 + 1/2)
    ∧ (a = b →
      getD (addCredits st a b kind eid ewhen).credits a 0 =
          getD st.credits a 0 + 1)
    ∧ (lookupKey (addCredits st a b kind eid ewhen).credits a).isSome = true
    ∧ (lookupKey (addCredits st a b kind eid ewhen).credits b).isSome = true := by
  unfold addCredits
  simp only [ha, hb, if_neg, ite_false]
  refine ⟨?_, ?_, ?_, ?_⟩
  · intro hab
    constructor
    · rw [getD_setKey_ne _ b a _ _ (fun h => hab h.symm), getD_setKey_self]
    · rw [getD_setKey_self, getD_setKey_ne _ a b _ _ hab]
  · intro hab
    subst hab
    rw [getD_setKey_self, getD_setKey_self]
    ring
  · by_cases hab : b = a
    · subst hab
      rw [lookupKey_setKey_self]
      rfl
    · rw [lookupKey_setKey_ne _ b a _ hab, lookupKey_setKey_self]
      rfl
  · rw [lookupKey_setKey_self]
    rfl

/-- Witness for C3: distinct runner and unloader on an empty ledger. -/
theorem addCredits_spec_witness :
    getD (addCredits ⟨["A", "B"], ["A", "B"], [], [], [], []⟩
        "A" "B" "3pm" "i" "t").credits "A" 0 =
      getD ([] : List (String × ℚ)) "A" 0 + 1/2
    ∧ getD (addCredits ⟨["A", "B"], ["A", "B"], [], [], [], []⟩
        "A" "B" "3pm" "i" "t").credits "B" 0 =
      getD ([] : List (String × ℚ)) "B" 0 + 1/2 :=
  (addCredits_spec ⟨["A", "B"], ["A", "B"], [], [], [], []⟩
    "A" "B" "3pm" "i" "t" (by decide) (by decide)).1 (by decide)

/-- C7. After every `addCredits` (`recordCompletion`), the new history
entry sits at the front of the log, the log is a prefix of the new entry
followed by the old log (so anything dropped is the oldest suffix), its
length is `min (old + 1) 200`, and it never exceeds 200 entries. -/
theorem addCredits_history_spec (st : AppState) (a b kind eid ewhen : String) :
    (addCredits st a b kind eid ewhen).history.length ≤ 200
    ∧ (addCredits st a b kind eid ewhen).history.head? =
        some ⟨eid, ewhen, kind, a, b, 1/2, 1/2⟩
    ∧ (addCredits st a b kind eid ewhen).history <+:
        (⟨eid, ewhen, kind, a, b, 1/2, 1/2⟩ : HistoryEntry) :: st.history
    ∧ (addCredits st a b kind eid ewhen).history.length =
        min (st.history.length + 1) 200 := by
  unfold addCredits
  refine ⟨?_, ?_, ?_, ?_⟩
  · simp only [List.length_take, List.length_cons]
    omega
  · rfl
  · exact List.take_prefix _ _
  · simp only [List.length_take, List.length_cons]
    omega

/-- C8. `setPin(name, candidate)` trims the candidate; a non-empty trimmed
value that does not match `^[0-9]{4,8}$` is rejected with a validation
error and the pins are left unchanged; a matching value is stored; an
empty value clears the PIN (stores `""`). -/
theorem setPin_spec (pins : List (String × String)) (name raw : String) :
    (jsTrim raw ≠ "" → validPin (jsTrim raw) = false →
      setPin pins name raw = (false, pins))
    ∧ (validPin (jsTrim raw) = true →
      setPin pins name raw = (true, setKey pins name (jsTrim raw)))
    ∧ (jsTrim raw = "" →
      setPin pins name raw = (true, setKey pins name "")) := by
  unfold setPin
  refine ⟨?_, ?_, ?_⟩
  · intro h1 h2
    simp [h1, h2]
  · intro h
    simp [h]
  · intro h
    simp [h]

/-- Witness for C8: "123" is rejected leaving the registry unchanged,
"12345" is stored, and "" clears the PIN. -/
theorem setPin_spec_witness :
    setPin [("A", "9999")] "A" "123" = (false, [("A", "9999")])
    ∧ setPin [("A", "9999")] "A" "12345" =
        (true, setKey [("A", "9999")] "A" "12345")
    ∧ setPin [("A", "9999")] "A" "" = (true, setKey [("A", "9999")] "A" "") := by
  refine ⟨(setPin_spec _ _ _).1 ?_ ?_, ?_, ?_⟩
  · decide
  · decide
  · exact (setPin_spec [("A", "9999")] "A" "12345").2.1 (by decide)
  · exact (setPin_spec [("A", "9999")] "A" "").2.2 (by decide)

/-! Queue rotation lemmas. -/

theorem rotate_one_eq (l : List String) : l.rotate 1 = l.drop 1 ++ l.take 1 := by
  cases l with
  | nil => simp
  | cons a t => simp [List.rotate_cons_succ]

theorem activeQueue_partition (st : AppState) (A P : List String)
    (hq : st.queue = A ++ P)
    (hA : ∀ x ∈ A, pausedD st x = false)
    (hP : ∀ x ∈ P, pausedD st x = true) :
    activeQueue st = A ∧ st.queue.filter (fun n => pausedD st n) = P := by
  constructor
  · show st.queue.filter _ = A
    rw [hq, List.filter_append]
    have h1 : A.filter (fun n => !(pausedD st n)) = A :=
      List.filter_eq_self.mpr (fun a ha => by rw [hA a ha]; rfl)
    have h2 : P.filter (fun n => !(pausedD st n)) = [] :=
      List.filter_eq_nil_iff.mpr (fun a ha => by rw [hP a ha]; simp)
    rw [h1, h2, List.append_nil]
  · rw [hq, List.filter_append]
    have h1 : A.filter (fun n => pausedD st n) = [] :=
      List.filter_eq_nil_iff.mpr (fun a ha => by rw [hA a ha]; simp)
    have h2 : P.filter (fun n => pausedD st n) = P :=
      List.filter_eq_self.mpr (fun a ha => hP a ha)
    rw [h1, h2, List.nil_append]

theorem advanceQueue_partition (st : AppState) (A P : List String)
    (hq : st.queue = A ++ P)
    (hA : ∀ x ∈ A, pausedD st x = false)
    (hP : ∀ x ∈ P, pausedD st x = true) :
    advanceQueue st = { st with queue := A.rotate 1 ++ P } := by
  obtain ⟨hact, hpaus⟩ := activeQueue_partition st A P hq hA hP
  unfold advanceQueue
  rw [hact, hpaus, rotate_one_eq]
  by_cases hA0 : A = []
  · subst hA0
    rw [if_pos rfl]
    have h1 : (([] : List String).drop 1 ++ ([] : List String).take 1) ++ P =
        st.queue := by
      simpa using hq.symm
    rw [h1]
  · rw [if_neg hA0]

theorem advanceQueue_iter (st : AppState) (A P : List String)
    (hq : st.queue = A ++ P)
    (hA : ∀ x ∈ A, pausedD st x = false)
    (hP : ∀ x ∈ P, pausedD st x = true) :
    ∀ k, advanceQueue^[k] st = { st with queue := A.rotate k ++ P } := by
  intro k
  induction k with
  | zero => simp [List.rotate_zero, ← hq]
  | succ k ih =>
    rw [Function.iterate_succ_apply', ih]
    have hstep :
        advanceQueue { st with queue := A.rotate k ++ P } =
          { { st with queue := A.rotate k ++ P } with
              queue := (A.rotate k).rotate 1 ++ P } := by
      apply advanceQueue_partition
      · rfl
      · intro x hx
        exact hA x (List.mem_rotate.mp hx)
      · intro x hx
        exact hP x hx
    rw [hstep, List.rotate_rotate]

/-- C5. With the queue partitioned into an active part `A` (no member
paused) followed by a paused part `P`, `advanceQueue` rotates the active
part left by one and leaves the paused suffix unchanged, is a no-op when
the active part is empty, `A.length` applications restore the state
exactly, and — for a duplicate-free active part — no smaller positive
number of applications does. -/
theorem advanceQueue_spec (st : AppState) (A P : List String) (k : Nat)
    (hq : st.queue = A ++ P)
    (hA : ∀ x ∈ A, pausedD st x = false)
    (hP : ∀ x ∈ P, pausedD st x = true) :
    (advanceQueue st).queue = A.rotate 1 ++ P
    ∧ (A = [] → advanceQueue st = st)
    ∧ advanceQueue^[A.length] st = st
    ∧ (A.Nodup → 0 < k → k < A.length → advanceQueue^[k] st ≠ st) := by
  have hpart := advanceQueue_partition st A P hq hA hP
  have hiter := advanceQueue_iter st A P hq hA hP
  refine ⟨by rw [hpart], ?_, ?_, ?_⟩
  · intro hA0
    subst hA0
    rw [hpart]
    have h1 : ([] : List String).rotate 1 ++ P = st.queue := by
      simpa using hq.symm
    rw [h1]
  · rw [hiter A.length, List.rotate_length, ← hq]
  · intro hnd hk0 hkn heq
    rw [hiter k] at heq
    have hqeq : A.rotate k ++ P = A ++ P := by
      have := congrArg AppState.queue heq
      simpa [hq] using this
    have hrot : A.rotate k = A := List.append_cancel_right hqeq
    rcases (hnd.rotate_eq_self_iff).mp hrot with h | h
    · rw [Nat.mod_eq_of_lt hkn] at h
      omega
    · subst h
      simp at hkn

/-- Witness for C5: an all-active three-member queue returns to its
original state after three advances and not after one. -/
theorem advanceQueue_spec_witness :
    (advanceQueue ⟨["A", "B", "C"], ["A", "B", "C"], [], [], [], []⟩).queue =
        (["A", "B", "C"].rotate 1) ++ []
    ∧ ((["A", "B", "C"] : List String) = [] →
        advanceQueue ⟨["A", "B", "C"], ["A", "B", "C"], [], [], [], []⟩ =
          ⟨["A", "B", "C"], ["A", "B", "C"], [], [], [], []⟩)
    ∧ advanceQueue^[(["A", "B", "C"] : List String).length]
        ⟨["A", "B", "C"], ["A", "B", "C"], [], [], [], []⟩ =
        ⟨["A", "B", "C"], ["A", "B", "C"], [], [], [], []⟩
    ∧ ((["A", "B", "C"] : List String).Nodup → 0 < 1 →
        1 < (["A", "B", "C"] : List String).length →
        advanceQueue^[1] ⟨["A", "B", "C"], ["A", "B", "C"], [], [], [], []⟩ ≠
          ⟨["A", "B", "C"], ["A", "B", "C"], [], [], [], []⟩) :=
  advanceQueue_spec ⟨["A", "B", "C"], ["A", "B", "C"], [], [], [], []⟩
    ["A", "B", "C"] [] 1 (by decide) (by decide) (by decide)

/-! Pause toggling. -/

theorem togglePause_eq (st : AppState) (x : String) :
    togglePause st x =
      { st with
        paused := setKey st.paused x (!(getD st.paused x false)),
        queue :=
          st.queue.filter
              (fun n =>
                !(getD (setKey st.paused x (!(getD st.paused x false))) n false))
            ++ st.queue.filter
              (fun n =>
                getD (setKey st.paused x (!(getD st.paused x false))) n false) } :=
  rfl

theorem getD_setKey_cases (l : List (String × Bool)) (x m : String) (v : Bool) :
    getD (setKey l x v) m false = if x = m then v else getD l m false := by
  by_cases hxm : x = m
  · subst hxm
    rw [getD_setKey_self, if_pos rfl]
  · rw [getD_setKey_ne l x m v false hxm, if_neg hxm]

/-- C6 (amended). From a partitioned queue with `x` active, toggling the
pause flag of `x` twice restores the paused mapping pointwise, but the
queue comes back with `x` moved to the end of the active partition
(relative order otherwise preserved) — not to its original position. -/
theorem togglePause_twice_spec (st : AppState) (A P : List String)
    (x n : String)
    (hq : st.queue = A ++ P)
    (hA : ∀ y ∈ A, pausedD st y = false)
    (hP : ∀ y ∈ P, pausedD st y = true)
    (hx : pausedD st x = false) :
    pausedD (togglePause (togglePause st x) x) n = pausedD st n
    ∧ (togglePause (togglePause st x) x).queue =
        A.filter (fun y => y ≠ x) ++ (A.filter (fun y => y = x) ++ P) := by
  have hx0 : getD st.paused x false = false := hx
  have hxP : x ∉ P := by
    intro hmem
    rw [hP x hmem] at hx
    exact Bool.noConfusion hx
  have h1p : (togglePause st x).paused = setKey st.paused x true := by
    rw [togglePause_eq, hx0]
    rfl
  have hp1 : ∀ m, getD (setKey st.paused x true) m false =
      if x = m then true else pausedD st m := fun m =>
    getD_setKey_cases st.paused x m true
  have c1 : A.filter
      (fun m => !(getD (setKey st.paused x true) m false)) =
      A.filter (fun y => y ≠ x) := by
    apply List.filter_congr
    intro a ha
    rw [hp1 a]
    by_cases hxa : x = a
    · subst hxa
      simp
    · rw [if_neg hxa, hA a ha]
      simp [Ne.symm hxa]
  have c2 : P.filter
      (fun m => !(getD (setKey st.paused x true) m false)) = [] := by
    apply List.filter_eq_nil_iff.mpr
    intro a ha
    rw [hp1 a]
    by_cases hxa : x = a
    · simp [if_pos hxa]
    · rw [if_neg hxa, hP a ha]
      simp
  have c3 : A.filter (fun m => getD (setKey st.paused x true) m false) =
      A.filter (fun y => y = x) := by
    apply List.filter_congr
    intro a ha
    rw [hp1 a]
    by_cases hxa : x = a
    · subst hxa
      simp
    · rw [if_neg hxa, hA a ha]
      simp [Ne.symm hxa]
  have c4 : P.filter (fun m => getD (setKey st.paused x true) m false) = P := by
    apply List.filter_eq_self.mpr
    intro a ha
    rw [hp1 a]
    by_cases hxa : x = a
    · simp [if_pos hxa]
    · rw [if_neg hxa]
      exact hP a ha
  have h1q : (togglePause st x).queue =
      A.filter (fun y => y ≠ x) ++ (A.filter (fun y => y = x) ++ P) := by
    rw [togglePause_eq, hx0]
    show st.queue.filter _ ++ st.queue.filter _ = _
    simp only [Bool.not_false]
    rw [hq, List.filter_append, List.filter_append, c1, c2, c3, c4,
      List.append_nil]
  -- the second toggle flips x back to false
  have h2flag : (!(getD (togglePause st x).paused x false)) = false := by
    rw [h1p, hp1 x, if_pos rfl]
    rfl
  have hp2 : ∀ m,
      getD (setKey (togglePause st x).paused x false) m false = pausedD st m := by
    intro m
    rw [getD_setKey_cases]
    by_cases hxm : x = m
    · subst hxm
      rw [if_pos rfl]
      exact hx.symm
    · rw [if_neg hxm, h1p, hp1 m, if_neg hxm]
  constructor
  · show getD (togglePause (togglePause st x) x).paused n false = pausedD st n
    rw [togglePause_eq, h2flag]
    show getD (setKey (togglePause st x).paused x false) n false = pausedD st n
    exact hp2 n
  · rw [togglePause_eq, h2flag]
    show (togglePause st x).queue.filter _ ++ (togglePause st x).queue.filter _
        = _
    have hpred1 : (fun m =>
        !(getD (setKey (togglePause st x).paused x false) m false)) =
        fun m => !(pausedD st m) := by
      funext m
      rw [hp2 m]
    have hpred2 : (fun m =>
        getD (setKey (togglePause st x).paused x false) m false) =
        fun m => pausedD st m := by
      funext m
      rw [hp2 m]
    rw [hpred1, hpred2, h1q]
    rw [List.filter_append, List.filter_append, List.filter_append,
      List.filter_append]
    have d1 : (A.filter (fun y => y ≠ x)).filter (fun m => !(pausedD st m)) =
        A.filter (fun y => y ≠ x) := by
      apply List.filter_eq_self.mpr
      intro a ha
      rw [hA a (List.mem_of_mem_filter ha)]
      rfl
    have d2 : (A.filter (fun y => y = x)).filter (fun m => !(pausedD st m)) =
        A.filter (fun y => y = x) := by
      apply List.filter_eq_self.mpr
      intro a ha
      rw [hA a (List.mem_of_mem_filter ha)]
      rfl
    have d3 : P.filter (fun m => !(pausedD st m)) = [] := by
      apply List.filter_eq_nil_iff.mpr
      intro a ha
      rw [hP a ha]
      simp
    have d4 : (A.filter (fun y => y ≠ x)).filter (fun m => pausedD st m) =
        [] := by
      apply List.filter_eq_nil_iff.mpr
      intro a ha
      rw [hA a (List.mem_of_mem_filter ha)]
      simp
    have d5 : (A.filter (fun y => y = x)).filter (fun m => pausedD st m) =
        [] := by
      apply List.filter_eq_nil_iff.mpr
      intro a ha
      rw [hA a (List.mem_of_mem_filter ha)]
      simp
    have d6 : P.filter (fun m => pausedD st m) = P := by
      apply List.filter_eq_self.mpr
      intro a ha
      exact hP a ha
    rw [d1, d2, d3, d4, d5, d6, List.append_nil, List.nil_append,
      List.nil_append, List.append_assoc]

/-- Counterexample for C6 as stated: pausing then unpausing "A" in the
two-member queue `["A", "B"]` leaves the queue as `["B", "A"]`, not its
original value. -/
theorem togglePause_twice_counterexample :
    (togglePause
        (togglePause ⟨["A", "B"], ["A", "B"], [], [], [], []⟩ "A") "A").queue ≠
      (⟨["A", "B"], ["A", "B"], [], [], [], []⟩ : AppState).queue := by
  decide

/-- Witness for the amended C6 on the queue `["A", "B"]` with nobody
paused, toggling "A" twice. -/
theorem togglePause_twice_spec_witness :
    pausedD (togglePause
        (togglePause ⟨["A", "B"], ["A", "B"], [], [], [], []⟩ "A") "A") "A" =
      pausedD ⟨["A", "B"], ["A", "B"], [], [], [], []⟩ "A"
    ∧ (togglePause
        (togglePause ⟨["A", "B"], ["A", "B"], [], [], [], []⟩ "A") "A").queue =
      (["A", "B"].filter (fun y => y ≠ "A")) ++
        ((["A", "B"].filter (fun y => y = "A")) ++ []) :=
  togglePause_twice_spec ⟨["A", "B"], ["A", "B"], [], [], [], []⟩
    ["A", "B"] [] "A" "A" (by decide) (by decide) (by decide) (by decide)

/-! Roster replacement. -/

/-- C4 (amended). For a non-empty deduplicated roster `R`, `applyRoster`
(the state update of `setRoster`) rebuilds the queue as `R` filtered by
the current paused set — a permutation of `R` exactly when that filter
keeps everything, i.e. when no member of `R` is currently paused — and
re-derives the credit and PIN maps keyed exactly by `R`, preserving the
prior value of every persisting name and defaulting new names to credit 0
and the empty PIN. -/
theorem applyRoster_spec (st : AppState) (R : List String) (n : String)
    (_hne : R ≠ []) (hnd : R.Nodup) (hn : n ∈ R) :
    (applyRoster st R).queue = R.filter (fun m => !(pausedD st m))
    ∧ (R.filter (fun m => !(pausedD st m)) = R →
        ((applyRoster st R).queue).Perm R)
    ∧ keys (applyRoster st R).credits = R
    ∧ keys (applyRoster st R).pins = R
    ∧ lookupKey (applyRoster st R).credits n = some (getD st.credits n 0)
    ∧ lookupKey (applyRoster st R).pins n = some (getD st.pins n "") := by
  have hc : (applyRoster st R).credits =
      R.map (fun m => (m, getD st.credits m 0)) := by
    show R.foldl _ [] = _
    rw [foldl_setKey_eq_map R _ [] hnd (by intro k _hk h; simp [keys] at h)]
    rfl
  have hp : (applyRoster st R).pins =
      R.map (fun m => (m, getD st.pins m "")) := by
    show R.foldl _ [] = _
    rw [foldl_setKey_eq_map R _ [] hnd (by intro k _hk h; simp [keys] at h)]
    rfl
  refine ⟨rfl, ?_, ?_, ?_, ?_, ?_⟩
  · intro h
    have hqR : (applyRoster st R).queue = R := h
    rw [hqR]
  · rw [hc]
    simp [keys, Function.comp_def]
  · rw [hp]
    simp [keys, Function.comp_def]
  · rw [hc]
    exact lookupKey_map_pair R _ n hn
  · rw [hp]
    exact lookupKey_map_pair R _ n hn

/-- Counterexample for C4 as stated: with "B" currently paused, replacing
the roster by `["A", "B"]` (non-empty, deduplicated) rebuilds the queue as
`["A"]`, which is not a permutation of the roster — the paused member is
dropped from the queue entirely. -/
theorem applyRoster_counterexample :
    ¬ ((applyRoster ⟨["A", "B"], ["A", "B"], [("B", true)], [], [], []⟩
        ["A", "B"]).queue).Perm ["A", "B"] := by
  intro h
  have hlen := h.length_eq
  have hqv : (applyRoster ⟨["A", "B"], ["A", "B"], [("B", true)], [], [], []⟩
      ["A", "B"]).queue = ["A"] := by decide
  rw [hqv] at hlen
  simp at hlen

/-- Witness for the amended C4: roster `["A", "B"]` replacing a state with
prior credit 3/2 and PIN "1234" for "A" and nobody paused. -/
theorem applyRoster_spec_witness :
    (applyRoster ⟨["A"], ["A"], [], [("A", 3/2)], [], [("A", "1234")]⟩
        ["A", "B"]).queue =
      ["A", "B"].filter (fun m =>
        !(pausedD ⟨["A"], ["A"], [], [("A", 3/2)], [], [("A", "1234")]⟩ m))
    ∧ ((["A", "B"] : List String).filter (fun m =>
        !(pausedD ⟨["A"], ["A"], [], [("A", 3/2)], [], [("A", "1234")]⟩ m)) =
          ["A", "B"] →
        ((applyRoster ⟨["A"], ["A"], [], [("A", 3/2)], [], [("A", "1234")]⟩
          ["A", "B"]).queue).Perm ["A", "B"])
    ∧ keys (applyRoster ⟨["A"], ["A"], [], [("A", 3/2)], [], [("A", "1234")]⟩
        ["A", "B"]).credits = ["A", "B"]
    ∧ keys (applyRoster ⟨["A"], ["A"], [], [("A", 3/2)], [], [("A", "1234")]⟩
        ["A", "B"]).pins = ["A", "B"]
    ∧ lookupKey (applyRoster
        ⟨["A"], ["A"], [], [("A", 3/2)], [], [("A", "1234")]⟩
        ["A", "B"]).credits "A" =
      some (getD [("A", (3/2 : ℚ))] "A" 0)
    ∧ lookupKey (applyRoster
        ⟨["A"], ["A"], [], [("A", 3/2)], [], [("A", "1234")]⟩
        ["A", "B"]).pins "A" =
      some (getD [("A", "1234")] "A" "") :=
  applyRoster_spec ⟨["A"], ["A"], [], [("A", 3/2)], [], [("A", "1234")]⟩
    ["A", "B"] "A" (by decide) (by decide) (by decide)

/-! Queue reordering. -/

theorem length_filter_partition (l : List String) (p : String → Bool) :
    (l.filter (fun n => !(p n))).length + (l.filter p).length = l.length := by
  induction l with
  | nil => rfl
  | cons a t ih =>
    by_cases h : p a <;> simp [List.filter_cons, h] <;> omega

/-- C9 (amended). `reorderQueue` performs no index validation and cannot
fail. A call with `fromIdx = toIdx` is an early-return no-op; a call with
`fromIdx` beyond the active sub-sequence (and `fromIdx ≠ toIdx`) does not
report any `IndexOutOfRange` error: it removes nothing, inserts an
`undefined` entry (here `none`) at `toIdx` clamped to the active length,
and returns a queue one element longer than before — the state changes
instead of being left intact. (An out-of-range `toIdx` alone likewise
merely clamps, moving the element to the end of the active part.) -/
theorem reorderQueue_out_of_range (st : AppState) (fromIdx toIdx : Nat)
    (hne : fromIdx ≠ toIdx) (hfrom : (activeQueue st).length ≤ fromIdx) :
    reorderQueue st fromIdx toIdx =
      ((activeQueue st).map some).take toIdx ++ [none]
        ++ ((activeQueue st).map some).drop toIdx
        ++ (st.queue.filter (fun n => pausedD st n)).map some
    ∧ (reorderQueue st fromIdx toIdx).length = st.queue.length + 1 := by
  have hrm : removeNth (activeQueue st) fromIdx = activeQueue st := by
    unfold removeNth
    rw [List.take_of_length_le hfrom,
      List.drop_eq_nil_of_le (by omega), List.append_nil]
  have hget : (activeQueue st)[fromIdx]? = none :=
    List.getElem?_eq_none hfrom
  have hmain : reorderQueue st fromIdx toIdx =
      ((activeQueue st).map some).take toIdx ++ [none]
        ++ ((activeQueue st).map some).drop toIdx
        ++ (st.queue.filter (fun n => pausedD st n)).map some := by
    unfold reorderQueue reorderActive
    rw [if_neg hne, hrm, hget, List.append_assoc, List.append_assoc]
  refine ⟨hmain, ?_⟩
  rw [hmain]
  have htot : (activeQueue st).length +
      (List.filter (fun n => pausedD st n) st.queue).length =
      st.queue.length := length_filter_partition st.queue (pausedD st)
  simp only [List.length_append, List.length_take, List.length_drop,
    List.length_map, List.length_cons, List.length_nil]
  omega

/-- Counterexample for C9 as stated: on the two-member active queue
`["A", "B"]`, `reorderQueue 0 5` has `toIdx = 5` outside `[0, 1]`, yet no
error is reported and the queue changes to `["B", "A"]` (the element is
moved to the clamped end) instead of staying unchanged. -/
theorem reorderQueue_counterexample :
    reorderQueue ⟨["A", "B"], ["A", "B"], [], [], [], []⟩ 0 5 ≠
      (⟨["A", "B"], ["A", "B"], [], [], [], []⟩ : AppState).queue.map some := by
  decide

/-- Witness for the amended C9: `fromIdx = 5` beyond the active length 2
inserts an `undefined` entry and grows the queue. -/
theorem reorderQueue_out_of_range_witness :
    reorderQueue ⟨["A", "B"], ["A", "B"], [], [], [], []⟩ 5 0 =
      ((activeQueue ⟨["A", "B"], ["A", "B"], [], [], [], []⟩).map some).take 0
        ++ [none]
        ++ ((activeQueue ⟨["A", "B"], ["A", "B"], [], [], [], []⟩).map
              some).drop 0
        ++ ((⟨["A", "B"], ["A", "B"], [], [], [], []⟩ : AppState).queue.filter
              (fun n =>
                pausedD ⟨["A", "B"], ["A", "B"], [], [], [], []⟩ n)).map some
    ∧ (reorderQueue ⟨["A", "B"], ["A", "B"], [], [], [], []⟩ 5 0).length =
      (⟨["A", "B"], ["A", "B"], [], [], [], []⟩ : AppState).queue.length + 1 :=
  reorderQueue_out_of_range ⟨["A", "B"], ["A", "B"], [], [], [], []⟩ 5 0
    (by decide) (by decide)

/-! Load completion. -/

theorem resolveName_ne_empty (i : Option String) (d : String) (hd : d ≠ "") :
    resolveName i d ≠ "" := by
  unfold resolveName
  cases i with
  | none => exact hd
  | some s =>
    by_cases h : jsTrim s = ""
    · simp [h, hd]
    · simp [h]

/-- C1. Whenever a PIN check fails during a `handleComplete` attempt —
for the resolved runner, or for the resolved unloader after the runner
passed — the whole transaction ends in `authDenied` and the state is
returned exactly as it was: no credit change, no queue advance, no
history change. -/
theorem handleComplete_authDenied (st : AppState) (kind : String)
    (rIn rSec uIn uSec : Option String) (eid ewhen : String)
    (hrun : resolveName rIn (defaultRunner st) ≠ "")
    (hdenied :
      requirePinFor st.pins (resolveName rIn (defaultRunner st)) rSec = false
      ∨ (requirePinFor st.pins (resolveName rIn (defaultRunner st)) rSec = true
        ∧ requirePinFor st.pins
            (resolveName uIn (resolveName rIn (defaultRunner st))) uSec =
            false)) :
    handleComplete st kind rIn rSec uIn uSec eid ewhen =
      (CompleteOutcome.authDenied, st) := by
  unfold handleComplete
  rcases hdenied with h | ⟨h1, h2⟩
  · simp [hrun, h]
  · have hunload :
        resolveName uIn (resolveName rIn (defaultRunner st)) ≠ "" :=
      resolveName_ne_empty uIn _ hrun
    simp [hrun, h1, h2, hunload]

/-- Witness for C1, the spec's own end-to-end scenario: PIN "1234" is set
for "A"; a completion attempt claims runner "A" with secret "0000" and is
denied with the state — credits, queue, history — unchanged. -/
theorem handleComplete_authDenied_witness :
    handleComplete
        ⟨["A", "B", "C", "D"], ["A", "B", "C", "D"], [], [], [],
          [("A", "1234")]⟩
        "3pm" (some "A") (some "0000") none none "i" "t" =
      (CompleteOutcome.authDenied,
        ⟨["A", "B", "C", "D"], ["A", "B", "C", "D"], [], [], [],
          [("A", "1234")]⟩) :=
  handleComplete_authDenied
    ⟨["A", "B", "C", "D"], ["A", "B", "C", "D"], [], [], [],
      [("A", "1234")]⟩
    "3pm" (some "A") (some "0000") none none "i" "t" (by decide)
    (Or.inl (by decide))

theorem advanceQueue_credits (st : AppState) :
    (advanceQueue st).credits = st.credits := by
  unfold advanceQueue
  split <;> rfl

theorem advanceQueue_history (st : AppState) :
    (advanceQueue st).history = st.history := by
  unfold advanceQueue
  split <;> rfl

/-- C10. For a name with no entry in the PIN registry — in particular any
name outside the roster — the PIN gate authorizes any supplied secret, so
a completion can be recorded under an arbitrary unknown name: the attempt
commits, a fresh credit entry worth 1 (run + unload) is created for that
name, and the history gains an entry attributed to it. -/
theorem handleComplete_unknown_name (st : AppState) (kind x : String)
    (s s2 : Option String) (eid ewhen : String)
    (hpin : lookupKey st.pins x = none)
    (hx : jsTrim x = x) (hne : x ≠ "")
    (hcred : lookupKey st.credits x = none) :
    requirePinFor st.pins x s = true
    ∧ (handleComplete st kind (some x) s none s2 eid ewhen).1 =
        CompleteOutcome.committed
    ∧ lookupKey
        ((handleComplete st kind (some x) s none s2 eid ewhen).2).credits x =
        some 1
    ∧ ((handleComplete st kind (some x) s none s2 eid ewhen).2).history.head? =
        some ⟨eid, ewhen, kind, x, x, 1/2, 1/2⟩ := by
  have hgd : getD st.pins x "" = "" := by
    simp [getD, hpin]
  have hgate : requirePinFor st.pins x s = true := by
    unfold requirePinFor
    rw [hgd]
    rfl
  have hgate2 : requirePinFor st.pins x s2 = true := by
    unfold requirePinFor
    rw [hgd]
    rfl
  have hrb : resolveName (some x) (defaultRunner st) = x := by
    show (if jsTrim x = "" then defaultRunner st else jsTrim x) = x
    rw [hx, if_neg hne]
  have hrun : handleComplete st kind (some x) s none s2 eid ewhen =
      (CompleteOutcome.committed,
        advanceQueue (addCredits st x x kind eid ewhen)) := by
    unfold handleComplete completeLoad
    rw [hrb]
    simp [hne, hgate, hgate2, resolveName]
  have hcredit :
      lookupKey (addCredits st x x kind eid ewhen).credits x = some 1 := by
    show lookupKey
        (if x = "" then _
          else setKey (if x = "" then st.credits
              else setKey st.credits x (getD st.credits x 0 + 1/2)) x
            (getD (if x = "" then st.credits
              else setKey st.credits x (getD st.credits x 0 + 1/2)) x 0
              + 1/2)) x = some 1
    rw [if_neg hne, if_neg hne, lookupKey_setKey_self, getD_setKey_self]
    have h0 : getD st.credits x 0 = 0 := by
      simp [getD, hcred]
    rw [h0]
    norm_num
  refine ⟨hgate, ?_, ?_, ?_⟩
  · rw [hrun]
  · rw [hrun]
    show lookupKey
        ((advanceQueue (addCredits st x x kind eid ewhen)).credits) x = some 1
    rw [advanceQueue_credits]
    exact hcredit
  · rw [hrun]
    show ((advanceQueue (addCredits st x x kind eid ewhen)).history).head? = _
    rw [advanceQueue_history]
    rfl

/-- Witness for C10: the name "Zed" is not on the roster and has no PIN
entry; with any secret the completion commits, creating credit 1 and a
history entry for "Zed". -/
theorem handleComplete_unknown_name_witness :
    requirePinFor [("A", "1234")] "Zed" (some "anything") = true
    ∧ (handleComplete ⟨["A", "B"], ["A", "B"], [], [], [], [("A", "1234")]⟩
        "night" (some "Zed") (some "anything") none none "i" "t").1 =
        CompleteOutcome.committed
    ∧ lookupKey
        ((handleComplete ⟨["A", "B"], ["A", "B"], [], [], [], [("A", "1234")]⟩
          "night" (some "Zed") (some "anything") none none "i" "t").2).credits
        "Zed" = some 1
    ∧ ((handleComplete ⟨["A", "B"], ["A", "B"], [], [], [], [("A", "1234")]⟩
        "night" (some "Zed") (some "anything") none none "i" "t").2).history.head? =
        some ⟨"i", "t", "night", "Zed", "Zed", 1/2, 1/2⟩ :=
  handleComplete_unknown_name
    ⟨["A", "B"], ["A", "B"], [], [], [], [("A", "1234")]⟩
    "night" "Zed" (some "anything") none "i" "t" (by decide) (by decide)
    (by decide) (by decide)

end Dishwasher
